import Mathlib

/-!
Verification development for the `babel-plugin-trace` labeled-statement logging
transform. The definitions below are a shallow embedding of the plugin core
(`src/unnamed/part_000`) and of the macro adapter (`src/macro.js`): pure string
and path helpers, the alias-table normalizer, the strip decision engine, the
start-message scan, the default renderer, and the validation/rewrite/unwrap
engine for labeled statements, modelled over a deep embedding of the syntax
tree fragment the plugin manipulates. Host-compiler machinery (parsing, scope
resolution, template instantiation, position-annotated error construction) is
kept abstract exactly where the source consumes it through an interface.
-/

namespace BabelTrace

/-! ## String primitives

JavaScript string operations used by the source, modelled over `List Char`
so that every definition evaluates by kernel reduction. Lower-casing and
trimming cover the ASCII range (the source applies them to environment
variables and identifiers). -/

/-- Lower-case one ASCII character, as `String.prototype.toLowerCase` does per character. -/
def lowerChar (c : Char) : Char :=
  if 'A' ≤ c ∧ c ≤ 'Z' then Char.ofNat (c.toNat + 32) else c

/-- Model of JavaScript `s.toLowerCase()` (ASCII range). -/
def jsToLower (s : String) : String := ⟨s.data.map lowerChar⟩

/-- ASCII whitespace recognised by `trim`. -/
def isSpaceChar (c : Char) : Bool := c = ' ' ∨ c = '\t' ∨ c = '\n' ∨ c = '\r'

/-- Model of JavaScript `s.trim()` (ASCII whitespace). -/
def jsTrim (s : String) : String :=
  ⟨((s.data.dropWhile isSpaceChar).reverse.dropWhile isSpaceChar).reverse⟩

/-- Split a character list on a separator character; always returns at least one group. -/
def splitChar (sep : Char) : List Char → List (List Char)
  | [] => [[]]
  | c :: cs =>
    let r := splitChar sep cs
    if c = sep then [] :: r
    else
      match r with
      | [] => [[c]]
      | g :: gs => (c :: g) :: gs

/-- Model of JavaScript `s.split(sep)` for a one-character separator. -/
def jsSplit (sep : Char) (s : String) : List String :=
  (splitChar sep s.data).map String.mk

/-- Is the first list a prefix of the second? -/
def isPfx : List Char → List Char → Bool
  | [], _ => true
  | _ :: _, [] => false
  | a :: as, b :: bs => a = b && isPfx as bs

/-- Does the second list occur contiguously inside the first? -/
def hasInfix : List Char → List Char → Bool
  | hay, needle =>
    match hay with
    | [] => needle.isEmpty
    | _ :: cs => isPfx needle hay || hasInfix cs needle

/-- Model of JavaScript `hay.includes(needle)`. -/
def jsIncludes (hay needle : String) : Bool := hasInfix hay.data needle.data

/-- Does the character list end with the given suffix? -/
def endsWithChars (l suf : List Char) : Bool := isPfx suf.reverse l.reverse

/-! ## Path helpers

Models of the Node.js `path` functions the source uses, for already-normalized
POSIX paths (no `.`/`..` resolution, which the source never relies on). -/

/-- Non-empty `/`-separated segments of a path. -/
def pathSegs (p : String) : List String := (jsSplit '/' p).filter (fun x => x ≠ "")

/-- Model of Node `path.basename(p)`. -/
def pathBasename (p : String) : String := ((pathSegs p).getLast?).getD ""

/-- Join path segments with `/`. -/
def joinSegs : List String → String
  | [] => ""
  | [s] => s
  | s :: rest => s ++ "/" ++ joinSegs rest

/-- Model of Node `path.dirname(p)`. -/
def pathDirname (p : String) : String :=
  let abs : Bool := p.data.head? = some '/'
  match (pathSegs p).dropLast with
  | [] => if abs then "/" else "."
  | segs => (if abs then "/" else "") ++ joinSegs segs

/-- Model of Node `path.extname(p)`: the final `.`-suffix of the basename,
empty when there is no dot or only a leading dot. -/
def pathExtname (p : String) : String :=
  let b := (pathBasename p).data
  let pre := b.reverse.takeWhile (fun c => c ≠ '.')
  if pre.length = b.length then ""
  else if pre.length + 1 = b.length then ""
  else String.mk ('.' :: pre.reverse)

/-- Model of Node `path.basename(p, ext)`: the basename with a trailing proper
`ext` suffix removed. -/
def pathBasenameExt (p ext : String) : String :=
  let b := pathBasename p
  if endsWithChars b.data ext.data ∧ ext.data.length < b.data.length then
    String.mk (b.data.take (b.data.length - ext.data.length))
  else b

/-- Model of Node `path.resolve(cwd, p)` for an absolute `cwd` and an
already-normalized `p`. -/
def pathResolve (cwd p : String) : String :=
  if p.data.head? = some '/' then p else cwd ++ "/" ++ p

/-! ## Environment override reader (src `normalizeEnv`, lines 88-95) -/

/-- Normalize one environment variable into a list of lower-cased, trimmed,
non-empty comma-separated tokens; `none` models an unset (falsy) variable. -/
def normalizeEnv (input : Option String) : List String :=
  match input with
  | none => []
  | some s =>
    if s = "" then []
    else ((jsSplit ',' s).map (fun c => jsTrim (jsToLower c))).filter (fun x => x ≠ "")

/-! ## File-derived prefix (src `generatePrefix`, lines 163-172)

The source function is named `generatePrefix`; it is embedded here as
`generatePrefixStr` (with the metadata field `prefix` embedded as `prefixStr`)
purely for lexical reasons. -/

/-- src `generatePrefix`: the logging prefix derived from the file's directory
name and extension-less basename. -/
def generatePrefixStr (dirname basename : String) : String :=
  if basename ≠ "index" then basename
  else
    let basename := pathBasename dirname
    if basename ≠ "src" ∧ basename ≠ "lib" then basename
    else pathBasename (pathDirname dirname)

/-- The file-path portion of src `collectMetadata` (lines 179-183) composed with
`generatePrefix`: the prefix the plugin computes for a given source file. -/
def filePrefixOf (cwd file : String) : String :=
  let filename := pathResolve cwd file
  let dirname := pathDirname filename
  let extname := pathExtname filename
  let basename := pathBasenameExt filename extname
  generatePrefixStr dirname basename

/-! ## Syntax tree fragment

A deep embedding of the statement/expression fragment the plugin inspects and
produces. `Stmt.exprStmt` carries the per-node `$handled` marker the source
attaches to replacement statements. Babel's `Function` visitor alias covers
function declarations and expressions (including arrows) and class methods;
these appear here as `funDecl`, `funE` and `classMethod`. A missing
`IfStatement` alternate is embedded as `emptyStmt`. -/

mutual
inductive Expr where
  | ident (name : String)
  | strLit (s : String)
  | numLit (n : Nat)
  | boolLit (b : Bool)
  | seqE (es : ExprList)
  | assignE (lhs rhs : Expr)
  | updateE (arg : Expr)
  | yieldE (arg : Expr)
  | callE (callee : Expr) (args : ExprList)
  | memberE (obj : Expr) (prop : String)
  | funE (body : StmtList)
inductive ExprList where
  | nil
  | cons (e : Expr) (es : ExprList)
inductive Stmt where
  | exprStmt (handled : Bool) (e : Expr)
  | labeled (label : String) (body : Stmt)
  | block (body : StmtList)
  | varDecl (name : String)
  | funDecl (name : String) (body : StmtList)
  | classDecl (name : String) (bodyMembers : StmtList)
  | classMethod (name : String) (body : StmtList)
  | retStmt
  | ifStmt (test : Expr) (conseq : Stmt) (alt : Stmt)
  | emptyStmt
inductive StmtList where
  | nil
  | cons (s : Stmt) (ss : StmtList)
end

/-- Length of a statement list. -/
def lengthSL : StmtList → Nat
  | .nil => 0
  | .cons _ ss => lengthSL ss + 1

/-- Length of an expression list. -/
def lengthEL : ExprList → Nat
  | .nil => 0
  | .cons _ es => lengthEL es + 1

/-- Concatenation of statement lists. -/
def appendSL : StmtList → StmtList → StmtList
  | .nil, t => t
  | .cons s ss, t => .cons s (appendSL ss t)

/-! ## Metadata and messages (src type declarations and lines 240-241, 294-305) -/

/-- The per-label metadata record computed by src `collectMetadata`. The source
field `prefix` is embedded as `prefixStr`. -/
structure Metadata where
  indent : Nat
  prefixStr : String
  parentName : String
  context : String
  hasStartMessage : Bool
  isStartMessage : Bool
  filename : String
  dirname : String
  basename : String
  extname : String

/-- The message record handed to a renderer (src lines 294-305): every field
except `content` is a literal node built from the metadata. The source field
`prefix` is embedded as `prefixStr`. -/
structure Message where
  prefixStr : Expr
  content : Expr
  hasStartMessage : Expr
  isStartMessage : Expr
  indent : Expr
  parentName : Expr
  filename : Expr
  dirname : Expr
  basename : Expr
  extname : Expr

/-- Build the message for one expression statement (src lines 294-305). -/
def mkMessage (md : Metadata) (content : Expr) : Message :=
  { prefixStr := .strLit md.prefixStr
    content := content
    hasStartMessage := .boolLit md.hasStartMessage
    isStartMessage := .boolLit md.isStartMessage
    indent := .numLit md.indent
    parentName := .strLit md.parentName
    filename := .strLit md.filename
    dirname := .strLit md.dirname
    basename := .strLit md.basename
    extname := .strLit md.extname }

/-- The named literal fields a `Message` carries, in the construction order of
src lines 294-305 (`content`, the payload, excluded). -/
def messageFields (m : Message) : List (String × Expr) :=
  [("prefix", m.prefixStr), ("hasStartMessage", m.hasStartMessage),
   ("isStartMessage", m.isStartMessage), ("indent", m.indent),
   ("parentName", m.parentName), ("filename", m.filename),
   ("dirname", m.dirname), ("basename", m.basename), ("extname", m.extname)]

/-! ## Default renderer (src `getLogFunction`, lines 111-134) -/

/-- `Array(n+1).join('  ')`: `n` copies of a two-space unit. -/
def twoSpaceRepeat : Nat → String
  | 0 => ""
  | n + 1 => "  " ++ twoSpaceRepeat n

/-- src `getLogFunction`: the default renderer for a console level. A
sequence-expression payload is spread into the call's arguments after the
prefix; any other payload becomes the single second argument (in the source
via the constant template `console.LOGLEVEL(PREFIX, CONTENT)`, whose
instantiation is embedded directly). -/
def getLogFunction (logLevel : String) (message : Message) (metadata : Metadata) : Expr :=
  let pfx : String :=
    metadata.context ++ ":" ++
      (if metadata.indent ≠ 0 then twoSpaceRepeat metadata.indent else "")
  match message.content with
  | .seqE es => .callE (.memberE (.ident "console") logLevel) (.cons (.strLit pfx) es)
  | c => .callE (.memberE (.ident "console") logLevel) (.cons (.strLit pfx) (.cons c .nil))

/-! ## Alias table and options normalization (src `normalizeOpts`, lines 139-161) -/

/-- A normalized renderer: the default console renderer at a level, or a
compiled textual template (the host's `template()` machinery stays abstract;
traversal functions take its semantics as a `tmpl` parameter). -/
inductive Renderer where
  | console (level : String)
  | template (src : String)

/-- An alias-table entry as configured: raw template text or a renderer. -/
inductive AliasVal where
  | str (s : String)
  | fn (r : Renderer)

/-- The alias table: label name to entry, single binding per key. -/
inductive AliasList where
  | nil
  | cons (name : String) (v : AliasVal) (rest : AliasList)

/-- Object property lookup on the alias table. -/
def aliasFind : AliasList → String → Option AliasVal
  | .nil, _ => none
  | .cons n v rest, key => if n = key then some v else aliasFind rest key

/-- JavaScript truthiness of an alias entry (`opts.aliases[name]`). -/
def truthyAlias : AliasVal → Bool
  | .str s => s ≠ ""
  | .fn _ => true

/-- Truthiness of an optional alias entry (missing keys are falsy). -/
def truthyAliasOpt : Option AliasVal → Bool
  | none => false
  | some v => truthyAlias v

/-- The strip configuration: falsy, `true`, a (truthy iff non-empty) string,
or an environment-name-keyed mapping. -/
inductive StripConfig where
  | absent
  | strue
  | sstr (s : String)
  | smap (m : List (String × Bool))

/-- The plugin options record, with the `$normalized` tag as a field. -/
structure Opts where
  aliases : Option AliasList
  strip : StripConfig
  normalized : Bool

/-- The per-entry normalization loop of src lines 152-157: non-empty string
entries are compiled once into template renderers, everything else passes
through unchanged. -/
def mapAliases : AliasList → AliasList
  | .nil => .nil
  | .cons n v rest =>
    let v' : AliasVal :=
      match v with
      | .str s => if s ≠ "" then .fn (.template s) else .str s
      | .fn r => .fn r
    .cons n v' (mapAliases rest)

/-- The default alias table installed when `config.aliases` is falsy
(src lines 144-149): `log` and `trace` share the `log`-level renderer,
`warn` gets the `warn`-level renderer. -/
def defaultAliases : AliasList :=
  .cons "log" (.fn (.console "log"))
    (.cons "trace" (.fn (.console "log"))
      (.cons "warn" (.fn (.console "warn")) .nil))

/-- src `normalizeOpts` (lines 139-161), as a pure function: a no-op on a
tagged record, defaults when aliases are falsy, per-entry template compilation
otherwise, and the `$normalized` tag set on the result. -/
def normalizeOpts (opts : Opts) : Opts :=
  if opts.normalized then opts
  else
    let aliases :=
      match opts.aliases with
      | none => defaultAliases
      | some al => mapAliases al
    { aliases := some aliases, strip := opts.strip, normalized := true }

/-- Alias-table lookup through the options record (`opts.aliases[name]`). -/
def lookupAlias (opts : Opts) (name : String) : Option AliasVal :=
  match opts.aliases with
  | none => none
  | some al => aliasFind al name

/-- Truthy alias lookup after normalization: the condition under which the
engine treats a label as a logging label. -/
def activeIn (opts : Opts) (name : String) : Bool :=
  truthyAliasOpt (lookupAlias (normalizeOpts opts) name)

/-! ## Strip decision engine (src `shouldStrip`, lines 247-270) -/

/-- JavaScript truthiness of the `strip` option. -/
def truthyStrip : StripConfig → Bool
  | .absent => false
  | .strue => true
  | .sstr s => s ≠ ""
  | .smap _ => true

/-- `strip === true`. -/
def stripIsTrue : StripConfig → Bool
  | .strue => true
  | _ => false

/-- `strip === process.env.NODE_ENV` (only a string compares equal to one). -/
def stripEqEnv : StripConfig → String → Bool
  | .sstr s, env => s = env
  | _, _ => false

/-- Are all characters decimal digits? -/
def allDigits : List Char → Bool
  | [] => true
  | c :: cs => ('0' ≤ c ∧ c ≤ '9') && allDigits cs

/-- The canonical non-negative integer a string denotes as a JavaScript array
index: digits only, no leading zero except exactly `"0"`. -/
def canonIndex (s : String) : Option Nat :=
  match s.data with
  | [] => none
  | c :: cs =>
    if allDigits (c :: cs) ∧ (c = '0' → cs = []) then
      some ((c :: cs).foldl (fun a d => a * 10 + (d.toNat - 48)) 0)
    else none

/-- Truthiness of the JavaScript property access `s[key]` on a string `s`:
a character at a valid index is a one-character string (always truthy), and
`"length"` is truthy exactly for non-empty `s`. Inherited `String.prototype`
method properties are not modelled. -/
def strIndexTruthy (s key : String) : Bool :=
  match canonIndex key with
  | some i => i < s.data.length
  | none => key = "length" ∧ s ≠ ""

/-- Truthiness of `strip[process.env.NODE_ENV]` (src line 252). For a mapping
this is the stored boolean; for a string it is JavaScript string indexing; the
`strue` case is never evaluated in the source (`strip === true` short-circuits
first), and a falsy `strip` never reaches this test. -/
def stripIndexTruthy : StripConfig → String → Bool
  | .smap m, env =>
    match m.lookup env with
    | some b => b
    | none => false
  | .sstr s, env => strIndexTruthy s env
  | .strue, _ => false
  | .absent, _ => false

/-- src `shouldStrip` (lines 247-270). `env` models `process.env.NODE_ENV`;
`pcs`, `pfs`, `pls` model the module-level `PRESERVE_CONTEXTS`,
`PRESERVE_FILES` and `PRESERVE_LEVELS` lists. -/
def shouldStrip (name : String) (metadata : Metadata) (strip : StripConfig)
    (env : String) (pcs pfs pls : List String) : Bool :=
  if truthyStrip strip &&
      (stripIsTrue strip || stripEqEnv strip env || stripIndexTruthy strip env) then
    if pcs.length != 0 &&
        pcs.any (fun pc => jsIncludes (jsToLower metadata.context) pc) then false
    else if pfs.length != 0 &&
        pfs.any (fun pf => jsIncludes (jsToLower metadata.filename) pf) then false
    else if pls.length != 0 && pls.any (fun pl => jsToLower name == pl) then false
    else true
  else false

/-! ## Start-message detection (src `collectMetadata`, lines 218-238) -/

/-- One body statement of the parent scope, as seen by the start-message loop:
its `$handled` marker, its label when it is a labeled statement, and whether it
is the very statement under inspection (`child.node === path.node`). -/
structure ScanChild where
  handled : Bool
  label : Option String
  isCurrent : Bool

/-- The start-message loop of src lines 221-237: returns
`(hasStartMessage, isStartMessage)`. A handled child stops with a start
message; a non-labeled child stops with none; an alias-labeled child stops
with a start message (marking the inspected statement when it is that child);
a labeled child with an unknown label lets the loop continue. -/
def startMessageScan (isAlias : String → Bool) : List ScanChild → Bool × Bool
  | [] => (false, false)
  | c :: rest =>
    if c.handled then (true, false)
    else
      match c.label with
      | none => (false, false)
      | some l => if isAlias l then (true, c.isCurrent) else startMessageScan isAlias rest

/-- The parent scope found by the ancestry walk, as far as the start-message
guard consults it. -/
inductive ParentScope where
  | noParent
  | program
  | scope (children : List ScanChild)

/-- The guard of src line 220 around the loop: the flags stay false unless a
non-program parent scope was found. -/
def startMessageFlags (isAlias : String → Bool) : ParentScope → Bool × Bool
  | .noParent => (false, false)
  | .program => (false, false)
  | .scope cs => startMessageScan isAlias cs

/-! ## Macro adapter (src/macro.js, lines 14-21) -/

/-- `warningLabels && warningLabels.includes(key)`: `none` models a supplied
falsy value. -/
def wlIncludes : Option (List String) → String → Bool
  | none, _ => false
  | some ws, k => ws.contains k

/-- The destructuring default for `warningLabels`. -/
def defaultWarningLabels : Option (List String) := some ["warn"]

/-- The alias table the macro derives from the named import references
(src/macro.js lines 16-20): each referenced name maps to the default renderer,
at level `warn` when the name is in `warningLabels` and `log` otherwise. -/
def refAliases (warningLabels : Option (List String)) : List String → AliasList
  | [] => .nil
  | k :: ks =>
    .cons k (.fn (.console (if wlIncludes warningLabels k then "warn" else "log")))
      (refAliases warningLabels ks)

/-- The macro's alias selection (src/macro.js lines 14-21): with at least one
non-default reference the configured aliases are discarded in favour of the
reference-derived table, otherwise they are kept. -/
def macroAliases (refNames : List String) (warningLabels : Option (List String))
    (aliases : Option AliasList) : Option AliasList :=
  if refNames.length > 0 then some (refAliases warningLabels refNames) else aliases

/-! ## Validation and rewrite traversal (src `handleLabeledStatement`, lines 286-310)

`path.traverse` visits the label's descendants in document order with two
visitors: the denylist visitor
`VariableDeclaration|Function|AssignmentExpression|UpdateExpression|YieldExpression|ReturnStatement`
throws the side-effect error, and the `ExpressionStatement` visitor replaces
every not-yet-handled expression statement with a handled statement wrapping
the rendered message. A node of a denylist kind aborts before its children are
entered, and a replaced statement's new subtree (not the original) is what the
traversal continues into, as the host requeues replacements. -/

/-- The side-effect error message (src line 288). Position annotation is the
host's `buildCodeFrameError` capability and stays outside the embedding. -/
def errMsg : String := "Logging statements cannot have side effects."

mutual
/-- Denylist scan of an expression subtree in document order: assignment,
update and yield expressions and function nodes throw; nothing below a
function node is entered (the function node itself throws first). -/
def checkExpr : Expr → Except String Unit
  | .ident _ => .ok ()
  | .strLit _ => .ok ()
  | .numLit _ => .ok ()
  | .boolLit _ => .ok ()
  | .seqE es => checkExprs es
  | .assignE _ _ => .error errMsg
  | .updateE _ => .error errMsg
  | .yieldE _ => .error errMsg
  | .callE f args =>
    match checkExpr f with
    | .error m => .error m
    | .ok _ => checkExprs args
  | .memberE o _ => checkExpr o
  | .funE _ => .error errMsg
/-- Denylist scan of an expression list in order. -/
def checkExprs : ExprList → Except String Unit
  | .nil => .ok ()
  | .cons e es =>
    match checkExpr e with
    | .error m => .error m
    | .ok _ => checkExprs es
end

section Handler

variable (tmpl : String → Message → Expr)

/-- Apply an alias entry to a message (src line 306,
`opts.aliases[label.node.name](message, metadata)`): the default console
renderer, or an instantiated template (`tmpl` abstracts the host's `template`
machinery; a normalized string entry was wrapped into a renderer that passes
only the message, src line 155). The `.str` case is unreachable for the truthy
lookups the engine performs on normalized options. -/
def applyRenderer (v : AliasVal) (msg : Message) (md : Metadata) : Expr :=
  match v with
  | .fn (.console lvl) => getLogFunction lvl msg md
  | .fn (.template s) => tmpl s msg
  | .str s => tmpl s msg

mutual
/-- The combined validation/rewrite traversal over one statement of the label
body. Denylist statements throw; a non-handled expression statement is
replaced by a handled statement wrapping the rendered message, and the
traversal continues into the replacement; all other statements are entered
recursively. -/
def txStmt (v : AliasVal) (md : Metadata) : Stmt → Except String Stmt
  | .exprStmt h e =>
    if h then
      match checkExpr e with
      | .error m => .error m
      | .ok _ => .ok (.exprStmt true e)
    else
      let repl := applyRenderer tmpl v (mkMessage md e) md
      match checkExpr repl with
      | .error m => .error m
      | .ok _ => .ok (.exprStmt true repl)
  | .labeled l b =>
    match txStmt v md b with
    | .error m => .error m
    | .ok b' => .ok (.labeled l b')
  | .block ss =>
    match txStmts v md ss with
    | .error m => .error m
    | .ok ss' => .ok (.block ss')
  | .varDecl _ => .error errMsg
  | .funDecl _ _ => .error errMsg
  | .classMethod _ _ => .error errMsg
  | .classDecl n ms =>
    match txStmts v md ms with
    | .error m => .error m
    | .ok ms' => .ok (.classDecl n ms')
  | .retStmt => .error errMsg
  | .ifStmt c t a =>
    match checkExpr c with
    | .error m => .error m
    | .ok _ =>
      match txStmt v md t with
      | .error m => .error m
      | .ok t' =>
        match txStmt v md a with
        | .error m => .error m
        | .ok a' => .ok (.ifStmt c t' a')
  | .emptyStmt => .ok .emptyStmt
/-- The traversal over a statement list in document order. -/
def txStmts (v : AliasVal) (md : Metadata) : StmtList → Except String StmtList
  | .nil => .ok .nil
  | .cons s ss =>
    match txStmt v md s with
    | .error m => .error m
    | .ok s' =>
      match txStmts v md ss with
      | .error m => .error m
      | .ok ss' => .ok (.cons s' ss')
end

/-- The unwrap step of src lines 312-317: a block body contributes its
statements to the parent, any other body contributes itself as the single
replacement statement. -/
def unwrapStmts : Stmt → StmtList
  | .block ss => ss
  | s => .cons s .nil

/-- The result of `handleLabeledStatement` on one labeled statement: untouched
(label not a truthy alias), removed (strip), replaced by the listed statements
(body unwrapped), or aborted with a fatal error. -/
inductive HandleResult where
  | ignored
  | removed
  | replaced (ss : StmtList)
  | fatal (msg : String)

/-- src `handleLabeledStatement` (lines 272-318). `md` stands for the
`collectMetadata` result for this label (its ancestry and file parts are
supplied by the host traversal); `env`, `pcs`, `pfs`, `pls` are as in
`shouldStrip`. After the rewrite traversal the label node is replaced by its
block body's statements, or by its single-statement body. -/
def handleLabeledStatement (opts : Opts) (md : Metadata) (env : String)
    (pcs pfs pls : List String) (label : String) (body : Stmt) : HandleResult :=
  let opts := normalizeOpts opts
  match lookupAlias opts label with
  | none => .ignored
  | some av =>
    if truthyAlias av = false then .ignored
    else if shouldStrip label md opts.strip env pcs pfs pls then .removed
    else
      match txStmt tmpl av md body with
      | .error m => .fatal m
      | .ok b' => .replaced (unwrapStmts b')

end Handler

/-! ## Denylist scan as a pure predicate

The effective side-effect test of the traversal, as a boolean: true exactly
when a denylist construct (variable declaration, function node — function
declaration or expression or class method —, assignment, update, yield,
return) occurs in the subtree, never looking below a function node. -/

mutual
/-- Does a statement subtree contain a denylist construct? -/
def scanStmt : Stmt → Bool
  | .exprStmt _ e => scanExpr e
  | .labeled _ b => scanStmt b
  | .block ss => scanStmts ss
  | .varDecl _ => true
  | .funDecl _ _ => true
  | .classMethod _ _ => true
  | .classDecl _ ms => scanStmts ms
  | .retStmt => true
  | .ifStmt c t a => scanExpr c || scanStmt t || scanStmt a
  | .emptyStmt => false
/-- Denylist scan over a statement list. -/
def scanStmts : StmtList → Bool
  | .nil => false
  | .cons s ss => scanStmt s || scanStmts ss
/-- Does an expression subtree contain a denylist construct? -/
def scanExpr : Expr → Bool
  | .ident _ => false
  | .strLit _ => false
  | .numLit _ => false
  | .boolLit _ => false
  | .seqE es => scanExprs es
  | .assignE _ _ => true
  | .updateE _ => true
  | .yieldE _ => true
  | .callE f args => scanExpr f || scanExprs args
  | .memberE o _ => scanExpr o
  | .funE _ => true
/-- Denylist scan over an expression list. -/
def scanExprs : ExprList → Bool
  | .nil => false
  | .cons e es => scanExpr e || scanExprs es
end

section Rewrite

variable (tmpl : String → Message → Expr)

mutual
/-- The pure rewrite the traversal performs on a denylist-free body: every
non-handled expression statement, at any depth, becomes a handled statement
wrapping the rendered message; everything else keeps its shape. -/
def rewriteStmt (v : AliasVal) (md : Metadata) : Stmt → Stmt
  | .exprStmt h e =>
    if h then .exprStmt true e
    else .exprStmt true (applyRenderer tmpl v (mkMessage md e) md)
  | .labeled l b => .labeled l (rewriteStmt v md b)
  | .block ss => .block (rewriteStmts v md ss)
  | .classDecl n ms => .classDecl n (rewriteStmts v md ms)
  | .ifStmt c t a => .ifStmt c (rewriteStmt v md t) (rewriteStmt v md a)
  | s => s
/-- The pure rewrite over a statement list. -/
def rewriteStmts (v : AliasVal) (md : Metadata) : StmtList → StmtList
  | .nil => .nil
  | .cons s ss => .cons (rewriteStmt v md s) (rewriteStmts v md ss)
end

end Rewrite

/-! ## The full plugin pass (src lines 323-335)

The program visitor traverses every labeled statement in document order and
hands each to `handleLabeledStatement`; the host requeues replacement nodes,
so statements spliced in by an unwrap are themselves revisited. The pass is
modelled with explicit fuel (`fuelOut` marks exhaustion): with a pathological
template renderer emitting fresh labeled statements the real traversal need
not terminate, so no fuel bound can be derived from the input alone. -/

/-- Result of a fueled pass computation. -/
inductive PRes (α : Type) where
  | ok (a : α)
  | fatal (m : String)
  | fuelOut

/-- A replacement list in a single-statement position (a host detail: a
one-element replacement substitutes directly; other arities are represented
as a block). -/
def asSingle : StmtList → Stmt
  | .cons s .nil => s
  | ss => .block ss

section Pass

variable (tmpl : String → Message → Expr) (opts : Opts) (md : Metadata)
  (env : String) (pcs pfs pls : List String)

mutual
/-- Process one statement of the program, returning the list of statements
that replaces it. A labeled statement goes through the handler: if ignored the
traversal still descends into its body; if replaced, the replacement
statements are revisited. -/
def passStmt : Nat → Stmt → PRes StmtList
  | 0, _ => .fuelOut
  | fuel + 1, s =>
    match s with
    | .labeled l b =>
      match handleLabeledStatement tmpl opts md env pcs pfs pls l b with
      | .ignored =>
        match passStmt fuel b with
        | .ok ss => .ok (.cons (.labeled l (asSingle ss)) .nil)
        | .fatal m => .fatal m
        | .fuelOut => .fuelOut
      | .removed => .ok .nil
      | .replaced ss => passStmts fuel ss
      | .fatal m => .fatal m
    | .exprStmt h e =>
      match passExpr fuel e with
      | .ok e' => .ok (.cons (.exprStmt h e') .nil)
      | .fatal m => .fatal m
      | .fuelOut => .fuelOut
    | .block ss =>
      match passStmts fuel ss with
      | .ok ss' => .ok (.cons (.block ss') .nil)
      | .fatal m => .fatal m
      | .fuelOut => .fuelOut
    | .varDecl n => .ok (.cons (.varDecl n) .nil)
    | .funDecl n b =>
      match passStmts fuel b with
      | .ok b' => .ok (.cons (.funDecl n b') .nil)
      | .fatal m => .fatal m
      | .fuelOut => .fuelOut
    | .classDecl n ms =>
      match passStmts fuel ms with
      | .ok ms' => .ok (.cons (.classDecl n ms') .nil)
      | .fatal m => .fatal m
      | .fuelOut => .fuelOut
    | .classMethod n b =>
      match passStmts fuel b with
      | .ok b' => .ok (.cons (.classMethod n b') .nil)
      | .fatal m => .fatal m
      | .fuelOut => .fuelOut
    | .retStmt => .ok (.cons .retStmt .nil)
    | .ifStmt c t a =>
      match passExpr fuel c with
      | .fatal m => .fatal m
      | .fuelOut => .fuelOut
      | .ok c' =>
        match passStmt fuel t with
        | .fatal m => .fatal m
        | .fuelOut => .fuelOut
        | .ok t' =>
          match passStmt fuel a with
          | .fatal m => .fatal m
          | .fuelOut => .fuelOut
          | .ok a' => .ok (.cons (.ifStmt c' (asSingle t') (asSingle a')) .nil)
    | .emptyStmt => .ok (.cons .emptyStmt .nil)
/-- Process a statement list, splicing each statement's replacement list. -/
def passStmts : Nat → StmtList → PRes StmtList
  | 0, _ => .fuelOut
  | fuel + 1, ss =>
    match ss with
    | .nil => .ok .nil
    | .cons s rest =>
      match passStmt fuel s with
      | .fatal m => .fatal m
      | .fuelOut => .fuelOut
      | .ok rs =>
        match passStmts fuel rest with
        | .fatal m => .fatal m
        | .fuelOut => .fuelOut
        | .ok rest' => .ok (appendSL rs rest')
/-- Process an expression: the program traversal reaches labeled statements
inside function-expression bodies too. -/
def passExpr : Nat → Expr → PRes Expr
  | 0, _ => .fuelOut
  | fuel + 1, e =>
    match e with
    | .ident n => .ok (.ident n)
    | .strLit s => .ok (.strLit s)
    | .numLit n => .ok (.numLit n)
    | .boolLit b => .ok (.boolLit b)
    | .seqE es =>
      match passExprs fuel es with
      | .ok es' => .ok (.seqE es')
      | .fatal m => .fatal m
      | .fuelOut => .fuelOut
    | .assignE l r =>
      match passExpr fuel l with
      | .fatal m => .fatal m
      | .fuelOut => .fuelOut
      | .ok l' =>
        match passExpr fuel r with
        | .ok r' => .ok (.assignE l' r')
        | .fatal m => .fatal m
        | .fuelOut => .fuelOut
    | .updateE a =>
      match passExpr fuel a with
      | .ok a' => .ok (.updateE a')
      | .fatal m => .fatal m
      | .fuelOut => .fuelOut
    | .yieldE a =>
      match passExpr fuel a with
      | .ok a' => .ok (.yieldE a')
      | .fatal m => .fatal m
      | .fuelOut => .fuelOut
    | .callE f args =>
      match passExpr fuel f with
      | .fatal m => .fatal m
      | .fuelOut => .fuelOut
      | .ok f' =>
        match passExprs fuel args with
        | .ok args' => .ok (.callE f' args')
        | .fatal m => .fatal m
        | .fuelOut => .fuelOut
    | .memberE o pr =>
      match passExpr fuel o with
      | .ok o' => .ok (.memberE o' pr)
      | .fatal m => .fatal m
      | .fuelOut => .fuelOut
    | .funE b =>
      match passStmts fuel b with
      | .ok b' => .ok (.funE b')
      | .fatal m => .fatal m
      | .fuelOut => .fuelOut
/-- Process an expression list. -/
def passExprs : Nat → ExprList → PRes ExprList
  | 0, _ => .fuelOut
  | fuel + 1, es =>
    match es with
    | .nil => .ok .nil
    | .cons e rest =>
      match passExpr fuel e with
      | .fatal m => .fatal m
      | .fuelOut => .fuelOut
      | .ok e' =>
        match passExprs fuel rest with
        | .ok rest' => .ok (.cons e' rest')
        | .fatal m => .fatal m
        | .fuelOut => .fuelOut
end

end Pass

/-! ## Absence of active labels in a tree -/

section Clean

variable (act : String → Bool)

mutual
/-- No labeled statement whose label satisfies `act` occurs in the statement. -/
def cleanStmt : Stmt → Bool
  | .exprStmt _ e => cleanExpr e
  | .labeled l b => !(act l) && cleanStmt b
  | .block ss => cleanStmts ss
  | .varDecl _ => true
  | .funDecl _ b => cleanStmts b
  | .classDecl _ ms => cleanStmts ms
  | .classMethod _ b => cleanStmts b
  | .retStmt => true
  | .ifStmt c t a => cleanExpr c && cleanStmt t && cleanStmt a
  | .emptyStmt => true
/-- No `act` label in a statement list. -/
def cleanStmts : StmtList → Bool
  | .nil => true
  | .cons s ss => cleanStmt s && cleanStmts ss
/-- No `act` label in an expression (labels occur below function expressions). -/
def cleanExpr : Expr → Bool
  | .ident _ => true
  | .strLit _ => true
  | .numLit _ => true
  | .boolLit _ => true
  | .seqE es => cleanExprs es
  | .assignE l r => cleanExpr l && cleanExpr r
  | .updateE a => cleanExpr a
  | .yieldE a => cleanExpr a
  | .callE f args => cleanExpr f && cleanExprs args
  | .memberE o _ => cleanExpr o
  | .funE b => cleanStmts b
/-- No `act` label in an expression list. -/
def cleanExprs : ExprList → Bool
  | .nil => true
  | .cons e es => cleanExpr e && cleanExprs es
end

end Clean

/-! ## Specification-side definitions and sample data

The following definitions follow the specification's wording (not the source)
and exist to be compared against the source embeddings, plus concrete sample
values used in closed statements. -/

/-- Spec-side reading of `generatePrefix` (spec section 4.4 step 2): use the
basename unless it is `index`, else the parent directory's name unless that is
`src` or `lib`, else the grandparent directory's name. -/
def prefixSpec (dirname basename : String) : String :=
  if basename ≠ "index" then basename
  else if pathBasename dirname ≠ "src" ∧ pathBasename dirname ≠ "lib" then
    pathBasename dirname
  else pathBasename (pathDirname dirname)

/-- Case-insensitive substring test, the claim's reading of the
`PreserveContexts` override. -/
def ciSubstrOf (needle hay : String) : Bool :=
  jsIncludes (jsToLower hay) (jsToLower needle)

/-- Spec-side reading of `shouldStrip` (spec section 4.5): falsy configuration
never strips; a tentative strip is overridden by, in order, a case-insensitive
context substring match, a lower-cased-filename substring match, or an exact
lower-cased level match. -/
def shouldStripSpec (name : String) (metadata : Metadata) (strip : StripConfig)
    (env : String) (pcs pfs pls : List String) : Bool :=
  if truthyStrip strip = false then false
  else if stripIsTrue strip || stripEqEnv strip env || stripIndexTruthy strip env then
    if pcs.any (fun pc => ciSubstrOf pc metadata.context) then false
    else if pfs.any (fun pf => jsIncludes (jsToLower metadata.filename) pf) then false
    else if pls.any (fun pl => jsToLower name == pl) then false
    else true
  else false

/-- The number of statements a body contributes when unwrapped, as the claim
counts them: N for an N-statement block, 1 otherwise. -/
def bodyLen (s : Stmt) : Nat := lengthSL (unwrapStmts s)

/-- Is the alias table empty? -/
def aliasIsEmpty : AliasList → Bool
  | .nil => true
  | .cons _ _ _ => false

/-- Is the option record's alias table absent or empty? -/
def tableIsEmpty (o : Opts) : Bool :=
  match o.aliases with
  | none => true
  | some al => aliasIsEmpty al

/-- The argument list of a call expression (used to count emitted arguments). -/
def callArgs : Expr → ExprList
  | .callE _ args => args
  | _ => .nil

/-- Is a handler result the fatal error? -/
def isFatalHR : HandleResult → Bool
  | .fatal _ => true
  | _ => false

/-- A concrete metadata record used in closed statements. -/
def sampleMetadata : Metadata :=
  { indent := 0, prefixStr := "app", parentName := "main", context := "app:main",
    hasStartMessage := false, isStartMessage := false,
    filename := "/proj/src/app.js", dirname := "/proj/src", basename := "app",
    extname := ".js" }

/-- A concrete template instantiation used in closed statements (the host's
`template` capability; closed statements below never depend on its output). -/
def sampleTmpl : String → Message → Expr := fun s _ => .ident s

/-- The options record of a configuration with no aliases and no strip. -/
def sampleOpts : Opts := { aliases := none, strip := .absent, normalized := false }

/-- The truthy-alias predicate of the default configuration. -/
def defaultActive : String → Bool := activeIn sampleOpts

/-- A sample message with a sequence-expression payload. -/
def sampleSeqMsg : Message :=
  mkMessage sampleMetadata (.seqE (.cons (.strLit "hello") (.cons (.ident "username") .nil)))

/-- A sample message with a single-expression payload. -/
def sampleSingleMsg : Message := mkMessage sampleMetadata (.strLit "hello")

/-! ## Helper lemmas -/

/-- The emptiness guards of src lines 255, 259, 263 are redundant: `any` on an
empty list is already false. -/
theorem guardAny {α : Type} (l : List α) (f : α → Bool) :
    ((l.length != 0) && l.any f) = l.any f := by
  cases l <;> simp

/-- `any` respects pointwise-equal predicates over the list's members. -/
theorem anyEqOfMem {α : Type} (l : List α) (f g : α → Bool)
    (h : ∀ x ∈ l, f x = g x) : l.any f = l.any g := by
  induction l with
  | nil => rfl
  | cons x xs ih =>
    simp only [List.any_cons]
    rw [h x (by simp), ih (fun y hy => h y (by simp [hy]))]

/-- Collapsing the indent guard of src line 114: zero repetitions render as
the empty string. -/
theorem ifIndent (n : Nat) : (if n ≠ 0 then twoSpaceRepeat n else "") = twoSpaceRepeat n := by
  cases n with
  | zero => simp [twoSpaceRepeat]
  | succ m => simp

/-- The same guard, in the orientation `simp` normalizes to. -/
theorem ifIndentZero (n : Nat) : (if n = 0 then "" else twoSpaceRepeat n) = twoSpaceRepeat n := by
  cases n with
  | zero => simp [twoSpaceRepeat]
  | succ m => simp

mutual
/-- The validation scan of an expression errs exactly when the denylist
predicate holds, always with the side-effect message. -/
theorem checkExpr_eq : ∀ e : Expr,
    checkExpr e = if scanExpr e then Except.error errMsg else Except.ok ()
  | .ident _ => rfl
  | .strLit _ => rfl
  | .numLit _ => rfl
  | .boolLit _ => rfl
  | .seqE es => by simpa [checkExpr, scanExpr] using checkExprs_eq es
  | .assignE _ _ => rfl
  | .updateE _ => rfl
  | .yieldE _ => rfl
  | .callE f args => by
    have hf := checkExpr_eq f
    have ha := checkExprs_eq args
    by_cases h1 : scanExpr f = true
    · simp [checkExpr, scanExpr, hf, h1]
    · simp only [Bool.not_eq_true] at h1
      by_cases h2 : scanExprs args = true
      · simp [checkExpr, scanExpr, hf, ha, h1, h2]
      · simp only [Bool.not_eq_true] at h2
        simp [checkExpr, scanExpr, hf, ha, h1, h2]
  | .memberE o _ => by simpa [checkExpr, scanExpr] using checkExpr_eq o
  | .funE _ => rfl

/-- The validation scan of an expression list errs exactly when the denylist
predicate holds on some member. -/
theorem checkExprs_eq : ∀ es : ExprList,
    checkExprs es = if scanExprs es then Except.error errMsg else Except.ok ()
  | .nil => rfl
  | .cons e es => by
    have he := checkExpr_eq e
    have hes := checkExprs_eq es
    by_cases h1 : scanExpr e = true
    · simp [checkExprs, scanExprs, he, h1]
    · simp only [Bool.not_eq_true] at h1
      by_cases h2 : scanExprs es = true
      · simp [checkExprs, scanExprs, he, hes, h1, h2]
      · simp only [Bool.not_eq_true] at h2
        simp [checkExprs, scanExprs, he, hes, h1, h2]
end

/-- The default renderer's output contains a denylist construct exactly when
the payload does (the console wrapper contributes none). -/
theorem scanExpr_getLog (lvl : String) (msg : Message) (md : Metadata) :
    scanExpr (getLogFunction lvl msg md) = scanExpr msg.content := by
  cases hc : msg.content <;> simp [getLogFunction, hc, scanExpr, scanExprs]

mutual
/-- Under a console renderer the combined traversal errs exactly when the body
contains a denylist construct, and otherwise performs the pure rewrite. -/
theorem txStmt_console (tmpl : String → Message → Expr) (lvl : String) (md : Metadata) :
    ∀ s : Stmt,
      txStmt tmpl (.fn (.console lvl)) md s =
        if scanStmt s then Except.error errMsg
        else Except.ok (rewriteStmt tmpl (.fn (.console lvl)) md s)
  | .exprStmt h e => by
    cases h with
    | true =>
      have he := checkExpr_eq e
      by_cases hse : scanExpr e = true
      · simp [txStmt, scanStmt, he, hse]
      · simp only [Bool.not_eq_true] at hse
        simp [txStmt, scanStmt, rewriteStmt, he, hse]
    | false =>
      have harg : scanExpr (applyRenderer tmpl (.fn (.console lvl)) (mkMessage md e) md) =
          scanExpr e := by
        simpa [applyRenderer] using scanExpr_getLog lvl (mkMessage md e) md
      have he := checkExpr_eq (applyRenderer tmpl (.fn (.console lvl)) (mkMessage md e) md)
      rw [harg] at he
      by_cases hse : scanExpr e = true
      · simp [txStmt, scanStmt, he, hse]
      · simp only [Bool.not_eq_true] at hse
        simp [txStmt, scanStmt, rewriteStmt, he, hse]
  | .labeled l b => by
    have hb := txStmt_console tmpl lvl md b
    by_cases hsb : scanStmt b = true
    · simp [txStmt, scanStmt, hb, hsb]
    · simp only [Bool.not_eq_true] at hsb
      simp [txStmt, scanStmt, rewriteStmt, hb, hsb]
  | .block ss => by
    have hs := txStmts_console tmpl lvl md ss
    by_cases hss : scanStmts ss = true
    · simp [txStmt, scanStmt, hs, hss]
    · simp only [Bool.not_eq_true] at hss
      simp [txStmt, scanStmt, rewriteStmt, hs, hss]
  | .varDecl _ => rfl
  | .funDecl _ _ => rfl
  | .classDecl n ms => by
    have hs := txStmts_console tmpl lvl md ms
    by_cases hss : scanStmts ms = true
    · simp [txStmt, scanStmt, hs, hss]
    · simp only [Bool.not_eq_true] at hss
      simp [txStmt, scanStmt, rewriteStmt, hs, hss]
  | .classMethod _ _ => rfl
  | .retStmt => rfl
  | .ifStmt c t a => by
    have hc := checkExpr_eq c
    have ht := txStmt_console tmpl lvl md t
    have ha := txStmt_console tmpl lvl md a
    by_cases hsc : scanExpr c = true
    · simp [txStmt, scanStmt, hc, hsc]
    · simp only [Bool.not_eq_true] at hsc
      by_cases hst : scanStmt t = true
      · simp [txStmt, scanStmt, hc, ht, hsc, hst]
      · simp only [Bool.not_eq_true] at hst
        by_cases hsa : scanStmt a = true
        · simp [txStmt, scanStmt, hc, ht, ha, hsc, hst, hsa]
        · simp only [Bool.not_eq_true] at hsa
          simp [txStmt, scanStmt, rewriteStmt, hc, ht, ha, hsc, hst, hsa]
  | .emptyStmt => rfl

/-- List version of `txStmt_console`. -/
theorem txStmts_console (tmpl : String → Message → Expr) (lvl : String) (md : Metadata) :
    ∀ ss : StmtList,
      txStmts tmpl (.fn (.console lvl)) md ss =
        if scanStmts ss then Except.error errMsg
        else Except.ok (rewriteStmts tmpl (.fn (.console lvl)) md ss)
  | .nil => rfl
  | .cons s ss => by
    have hs := txStmt_console tmpl lvl md s
    have hss := txStmts_console tmpl lvl md ss
    by_cases h1 : scanStmt s = true
    · simp [txStmts, scanStmts, hs, h1]
    · simp only [Bool.not_eq_true] at h1
      by_cases h2 : scanStmts ss = true
      · simp [txStmts, scanStmts, hs, hss, h1, h2]
      · simp only [Bool.not_eq_true] at h2
        simp [txStmts, scanStmts, rewriteStmts, hs, hss, h1, h2]
end

/-- The handler on a truthy console-renderer alias that is not stripped:
fatal on a denylist construct, otherwise the unwrapped pure rewrite. -/
theorem handler_console (tmpl : String → Message → Expr) (opts : Opts) (md : Metadata)
    (env : String) (pcs pfs pls : List String) (l : String) (b : Stmt) (lvl : String)
    (hl : lookupAlias (normalizeOpts opts) l = some (.fn (.console lvl)))
    (hs : shouldStrip l md (normalizeOpts opts).strip env pcs pfs pls = false) :
    handleLabeledStatement tmpl opts md env pcs pfs pls l b =
      if scanStmt b then .fatal errMsg
      else .replaced (unwrapStmts (rewriteStmt tmpl (.fn (.console lvl)) md b)) := by
  unfold handleLabeledStatement
  simp only [hl, truthyAlias, hs]
  rw [txStmt_console tmpl lvl md b]
  by_cases hb : scanStmt b = true
  · simp [hb]
  · simp only [Bool.not_eq_true] at hb
    simp [hb]

/-- The rewrite traversal preserves the number of statements in a list. -/
theorem txStmts_length (tmpl : String → Message → Expr) (v : AliasVal) (md : Metadata) :
    ∀ ss ss', txStmts tmpl v md ss = .ok ss' → lengthSL ss' = lengthSL ss
  | .nil, ss', h => by
    simp only [txStmts] at h
    cases h
    rfl
  | .cons s ss, ss', h => by
    simp only [txStmts] at h
    split at h
    · cases h
    · split at h
      · cases h
      · cases h
        rename_i s' hs rest' hrest
        simp [lengthSL, txStmts_length tmpl v md ss rest' hrest]

/-- The rewrite traversal preserves the number of statements a body
contributes when unwrapped. -/
theorem txStmt_unwrapLen (tmpl : String → Message → Expr) (v : AliasVal) (md : Metadata) :
    ∀ s s', txStmt tmpl v md s = .ok s' →
      lengthSL (unwrapStmts s') = lengthSL (unwrapStmts s)
  | .exprStmt hd e, s', h => by
    simp only [txStmt] at h
    split at h <;> [skip; skip] <;> split at h <;> first | (cases h; rfl) | cases h
  | .labeled l b, s', h => by
    simp only [txStmt] at h
    split at h
    · cases h
    · cases h; rfl
  | .block ss, s', h => by
    simp only [txStmt] at h
    split at h
    · cases h
    · cases h
      rename_i ss' hss
      simpa [unwrapStmts] using txStmts_length tmpl v md ss ss' hss
  | .varDecl _, s', h => by simp only [txStmt] at h; cases h
  | .funDecl _ _, s', h => by simp only [txStmt] at h; cases h
  | .classDecl n ms, s', h => by
    simp only [txStmt] at h
    split at h
    · cases h
    · cases h; rfl
  | .classMethod _ _, s', h => by simp only [txStmt] at h; cases h
  | .retStmt, s', h => by simp only [txStmt] at h; cases h
  | .ifStmt c t a, s', h => by
    simp only [txStmt] at h
    split at h
    · cases h
    · split at h
      · cases h
      · split at h
        · cases h
        · cases h; rfl
  | .emptyStmt, s', h => by
    simp only [txStmt] at h
    cases h
    rfl

/-- A labeled statement the handler ignores has an inactive label. -/
theorem handler_ignored_inactive (tmpl : String → Message → Expr) (opts : Opts)
    (md : Metadata) (env : String) (pcs pfs pls : List String) (l : String) (b : Stmt)
    (h : handleLabeledStatement tmpl opts md env pcs pfs pls l b = .ignored) :
    activeIn opts l = false := by
  unfold handleLabeledStatement at h
  unfold activeIn truthyAliasOpt
  cases hv : lookupAlias (normalizeOpts opts) l with
  | none => rfl
  | some av =>
    simp only [hv] at h
    cases ht : truthyAlias av with
    | false => exact ht
    | true =>
      exfalso
      rw [ht, if_neg (by simp : ¬ (true = false))] at h
      split at h
      · cases h
      · split at h <;> cases h

/-- Cleanness distributes over statement-list concatenation. -/
theorem appendSL_clean (act : String → Bool) :
    ∀ a b, cleanStmts act (appendSL a b) = (cleanStmts act a && cleanStmts act b)
  | .nil, b => by simp [appendSL, cleanStmts]
  | .cons s ss, b => by
    simp [appendSL, cleanStmts, appendSL_clean act ss b, Bool.and_assoc]

/-- Cleanness of a replacement list carries over to its single-position form. -/
theorem asSingle_clean (act : String → Bool) (ss : StmtList)
    (h : cleanStmts act ss = true) : cleanStmt act (asSingle ss) = true := by
  cases ss with
  | nil => rfl
  | cons s rest =>
    cases rest with
    | nil =>
      simp only [cleanStmts, Bool.and_eq_true] at h
      simpa [asSingle] using h.1
    | cons s2 r2 => simpa [asSingle, cleanStmt] using h

/-- The pass invariant: whatever a fueled pass returns contains no labeled
statement whose label is a truthy alias of the (normalized) options. -/
theorem passClean (tmpl : String → Message → Expr) (opts : Opts) (md : Metadata)
    (env : String) (pcs pfs pls : List String) :
    ∀ fuel : Nat,
      (∀ s r, passStmt tmpl opts md env pcs pfs pls fuel s = .ok r →
        cleanStmts (activeIn opts) r = true) ∧
      (∀ ss r, passStmts tmpl opts md env pcs pfs pls fuel ss = .ok r →
        cleanStmts (activeIn opts) r = true) ∧
      (∀ e r, passExpr tmpl opts md env pcs pfs pls fuel e = .ok r →
        cleanExpr (activeIn opts) r = true) ∧
      (∀ es r, passExprs tmpl opts md env pcs pfs pls fuel es = .ok r →
        cleanExprs (activeIn opts) r = true)
  | 0 => by
    refine ⟨?_, ?_, ?_, ?_⟩ <;> intro x r h <;>
      simp [passStmt, passStmts, passExpr, passExprs] at h
  | fuel + 1 => by
    have ih := passClean tmpl opts md env pcs pfs pls fuel
    refine ⟨?_, ?_, ?_, ?_⟩
    · intro s r h
      cases s with
      | labeled l b =>
        simp only [passStmt] at h
        split at h
        · rename_i hh
          split at h
          · rename_i ss hss
            cases h
            have hact := handler_ignored_inactive tmpl opts md env pcs pfs pls l b hh
            have hcl := asSingle_clean (activeIn opts) ss (ih.1 b ss hss)
            simp [cleanStmts, cleanStmt, hact, hcl]
          · cases h
          · cases h
        · cases h
          rfl
        · exact ih.2.1 _ r h
        · cases h
      | exprStmt hd e =>
        simp only [passStmt] at h
        split at h
        · rename_i e' he
          cases h
          simpa [cleanStmts, cleanStmt] using ih.2.2.1 e e' he
        · cases h
        · cases h
      | block ss =>
        simp only [passStmt] at h
        split at h
        · rename_i ss' hss
          cases h
          simpa [cleanStmts, cleanStmt] using ih.2.1 ss ss' hss
        · cases h
        · cases h
      | varDecl n =>
        simp only [passStmt] at h
        cases h
        rfl
      | funDecl n b =>
        simp only [passStmt] at h
        split at h
        · rename_i b' hb
          cases h
          simpa [cleanStmts, cleanStmt] using ih.2.1 b b' hb
        · cases h
        · cases h
      | classDecl n ms =>
        simp only [passStmt] at h
        split at h
        · rename_i ms' hms
          cases h
          simpa [cleanStmts, cleanStmt] using ih.2.1 ms ms' hms
        · cases h
        · cases h
      | classMethod n b =>
        simp only [passStmt] at h
        split at h
        · rename_i b' hb
          cases h
          simpa [cleanStmts, cleanStmt] using ih.2.1 b b' hb
        · cases h
        · cases h
      | retStmt =>
        simp only [passStmt] at h
        cases h
        rfl
      | ifStmt c t a =>
        simp only [passStmt] at h
        split at h
        · cases h
        · cases h
        · rename_i c' hc
          split at h
          · cases h
          · cases h
          · rename_i t' ht
            split at h
            · cases h
            · cases h
            · rename_i a' ha
              cases h
              have h1 := ih.2.2.1 c c' hc
              have h2 := asSingle_clean (activeIn opts) t' (ih.1 t t' ht)
              have h3 := asSingle_clean (activeIn opts) a' (ih.1 a a' ha)
              simp [cleanStmts, cleanStmt, h1, h2, h3]
      | emptyStmt =>
        simp only [passStmt] at h
        cases h
        rfl
    · intro ss r h
      cases ss with
      | nil =>
        simp only [passStmts] at h
        cases h
        rfl
      | cons s rest =>
        simp only [passStmts] at h
        split at h
        · cases h
        · cases h
        · rename_i rs hrs
          split at h
          · cases h
          · cases h
          · rename_i rest' hrest
            cases h
            have h1 := ih.1 s rs hrs
            have h2 := ih.2.1 rest rest' hrest
            simp [appendSL_clean, h1, h2]
    · intro e r h
      cases e with
      | ident n =>
        simp only [passExpr] at h
        cases h
        rfl
      | strLit s =>
        simp only [passExpr] at h
        cases h
        rfl
      | numLit n =>
        simp only [passExpr] at h
        cases h
        rfl
      | boolLit b =>
        simp only [passExpr] at h
        cases h
        rfl
      | seqE es =>
        simp only [passExpr] at h
        split at h
        · rename_i es' hes
          cases h
          simpa [cleanExpr] using ih.2.2.2 es es' hes
        · cases h
        · cases h
      | assignE le re =>
        simp only [passExpr] at h
        split at h
        · cases h
        · cases h
        · rename_i l' hl
          split at h
          · rename_i r' hr
            cases h
            have h1 := ih.2.2.1 le l' hl
            have h2 := ih.2.2.1 re r' hr
            simp [cleanExpr, h1, h2]
          · cases h
          · cases h
      | updateE a =>
        simp only [passExpr] at h
        split at h
        · rename_i a' ha
          cases h
          simpa [cleanExpr] using ih.2.2.1 a a' ha
        · cases h
        · cases h
      | yieldE a =>
        simp only [passExpr] at h
        split at h
        · rename_i a' ha
          cases h
          simpa [cleanExpr] using ih.2.2.1 a a' ha
        · cases h
        · cases h
      | callE f args =>
        simp only [passExpr] at h
        split at h
        · cases h
        · cases h
        · rename_i f' hf
          split at h
          · rename_i args' hargs
            cases h
            have h1 := ih.2.2.1 f f' hf
            have h2 := ih.2.2.2 args args' hargs
            simp [cleanExpr, h1, h2]
          · cases h
          · cases h
      | memberE o pr =>
        simp only [passExpr] at h
        split at h
        · rename_i o' ho
          cases h
          simpa [cleanExpr] using ih.2.2.1 o o' ho
        · cases h
        · cases h
      | funE b =>
        simp only [passExpr] at h
        split at h
        · rename_i b' hb
          cases h
          simpa [cleanExpr] using ih.2.1 b b' hb
        · cases h
        · cases h
    · intro es r h
      cases es with
      | nil =>
        simp only [passExprs] at h
        cases h
        rfl
      | cons e rest =>
        simp only [passExprs] at h
        split at h
        · cases h
        · cases h
        · rename_i e' he
          split at h
          · rename_i rest' hrest
            cases h
            have h1 := ih.2.2.1 e e' he
            have h2 := ih.2.2.2 rest rest' hrest
            simp [cleanExprs, h1, h2]
          · cases h
          · cases h

/-! ## Claim theorems -/

/-- C1: for every labeled statement whose label is a truthy entry of the
normalized alias table, the handler either removes the whole statement (strip
decision true) or, when it neither strips nor aborts, replaces the label node
by the contents of its body — contributing N statements for an N-statement
block body and 1 for a single-statement body — and a completed full pass
leaves no labeled statement with any such label anywhere in the output. -/
theorem claim1_label_unwrap :
    (∀ tmpl opts md env pcs pfs pls l b,
      activeIn opts l = true →
      shouldStrip l md (normalizeOpts opts).strip env pcs pfs pls = true →
      handleLabeledStatement tmpl opts md env pcs pfs pls l b = .removed) ∧
    (∀ tmpl opts md env pcs pfs pls l b,
      activeIn opts l = true →
      shouldStrip l md (normalizeOpts opts).strip env pcs pfs pls = false →
      (∀ m, handleLabeledStatement tmpl opts md env pcs pfs pls l b ≠ .fatal m) →
      ∃ ss, handleLabeledStatement tmpl opts md env pcs pfs pls l b = .replaced ss ∧
        lengthSL ss = bodyLen b) ∧
    (∀ tmpl opts md env pcs pfs pls fuel prog out,
      passStmts tmpl opts md env pcs pfs pls fuel prog = .ok out →
      cleanStmts (activeIn opts) out = true) := by
  refine ⟨?_, ?_, ?_⟩
  · intro tmpl opts md env pcs pfs pls l b ha hs
    unfold activeIn truthyAliasOpt at ha
    unfold handleLabeledStatement
    cases hv : lookupAlias (normalizeOpts opts) l with
    | none => rw [hv] at ha; cases ha
    | some av =>
      rw [hv] at ha
      replace ha : truthyAlias av = true := ha
      simp [hv, ha, hs]
  · intro tmpl opts md env pcs pfs pls l b ha hs hnf
    unfold activeIn truthyAliasOpt at ha
    unfold handleLabeledStatement at hnf ⊢
    cases hv : lookupAlias (normalizeOpts opts) l with
    | none => rw [hv] at ha; cases ha
    | some av =>
      rw [hv] at ha
      replace ha : truthyAlias av = true := ha
      simp only [hv, ha, hs] at hnf ⊢
      cases htx : txStmt tmpl av md b with
      | error m =>
        exfalso
        apply hnf m
        simp [htx]
      | ok b' =>
        refine ⟨unwrapStmts b', by simp [htx], ?_⟩
        exact txStmt_unwrapLen tmpl av md b b' htx
  · intro tmpl opts md env pcs pfs pls fuel prog out h
    exact (passClean tmpl opts md env pcs pfs pls fuel).2.1 prog out h

/-- C1 witness: the theorem applied concretely — with `strip: true` a `trace:`
label is removed; with no strip a two-statement block body is replaced by
exactly two statements; and a completed pass over a one-label program yields
an output with no active labels. -/
theorem claim1_label_unwrap_witness :
    handleLabeledStatement sampleTmpl
      { aliases := none, strip := .strue, normalized := false } sampleMetadata
      "development" [] [] [] "trace" (.exprStmt false (.strLit "hi")) = .removed ∧
    (∃ ss, handleLabeledStatement sampleTmpl sampleOpts sampleMetadata
        "development" [] [] [] "trace"
        (.block (.cons (.exprStmt false (.strLit "hi"))
          (.cons (.exprStmt false (.ident "x")) .nil))) = .replaced ss ∧
      lengthSL ss = 2) ∧
    cleanStmts (activeIn sampleOpts)
      (.cons (.exprStmt true
        (.callE (.memberE (.ident "console") "log")
          (.cons (.strLit "app:main:") (.cons (.strLit "hi") .nil)))) .nil) = true :=
  ⟨claim1_label_unwrap.1 sampleTmpl
      { aliases := none, strip := .strue, normalized := false } sampleMetadata
      "development" [] [] [] "trace" (.exprStmt false (.strLit "hi")) rfl rfl,
   claim1_label_unwrap.2.1 sampleTmpl sampleOpts sampleMetadata
      "development" [] [] [] "trace"
      (.block (.cons (.exprStmt false (.strLit "hi"))
        (.cons (.exprStmt false (.ident "x")) .nil))) rfl rfl
      (fun _ hm => HandleResult.noConfusion hm),
   claim1_label_unwrap.2.2 sampleTmpl sampleOpts sampleMetadata
      "development" [] [] [] 20
      (.cons (.labeled "trace" (.exprStmt false (.strLit "hi"))) .nil)
      (.cons (.exprStmt true
        (.callE (.memberE (.ident "console") "log")
          (.cons (.strLit "app:main:") (.cons (.strLit "hi") .nil)))) .nil) rfl⟩

/-- C2 counterexample: a method-less class declaration is a class definition,
yet the handler does not abort on it — the denylist visitor matches babel's
`Function` alias (which covers class methods but not the `ClassDeclaration`
node itself), so `trace: { class Foo {} }` is rewritten, not rejected. -/
theorem claim2_counterexample :
    handleLabeledStatement sampleTmpl sampleOpts sampleMetadata "development"
      [] [] [] "trace" (.block (.cons (.classDecl "Foo" .nil) .nil)) =
      .replaced (.cons (.classDecl "Foo" .nil) .nil) ∧
    isFatalHR (handleLabeledStatement sampleTmpl sampleOpts sampleMetadata
      "development" [] [] [] "trace"
      (.block (.cons (.classDecl "Foo" .nil) .nil))) = false :=
  ⟨rfl, rfl⟩

/-- C2 as amended: for an alias-matching, non-stripped label whose renderer is
the default console renderer, the handler aborts with exactly the
position-annotated message "Logging statements cannot have side effects." iff
the body contains a denylist construct — a variable declaration, a function
node (function declaration, function expression, or class method; a class
declaration triggers the error only through a contained method), an
assignment, an update, a yield, or a return — and any fatal result carries
that one message; constructs inside a nested function's body are never
reached by the scan (the function node itself is the violation), so the
scan's value does not depend on a function body's contents. -/
theorem claim2_side_effect_validation :
    ∀ tmpl opts md env pcs pfs pls l b lvl,
      lookupAlias (normalizeOpts opts) l = some (.fn (.console lvl)) →
      shouldStrip l md (normalizeOpts opts).strip env pcs pfs pls = false →
      ((handleLabeledStatement tmpl opts md env pcs pfs pls l b = .fatal errMsg) ↔
        scanStmt b = true) ∧
      (∀ m, handleLabeledStatement tmpl opts md env pcs pfs pls l b = .fatal m →
        m = errMsg) ∧
      (∀ bs bs', scanExpr (.funE bs) = scanExpr (.funE bs')) ∧
      (∀ n bs bs', scanStmt (.funDecl n bs) = scanStmt (.funDecl n bs')) ∧
      (∀ n bs bs', scanStmt (.classMethod n bs) = scanStmt (.classMethod n bs')) := by
  intro tmpl opts md env pcs pfs pls l b lvl hl hs
  have hh := handler_console tmpl opts md env pcs pfs pls l b lvl hl hs
  refine ⟨?_, ?_, fun bs bs' => rfl, fun n bs bs' => rfl, fun n bs bs' => rfl⟩
  · rw [hh]
    by_cases hb : scanStmt b = true
    · simp [hb]
    · simp only [Bool.not_eq_true] at hb
      simp [hb]
  · intro m hm
    rw [hh] at hm
    by_cases hb : scanStmt b = true
    · rw [if_pos hb] at hm
      cases hm
      rfl
    · simp only [Bool.not_eq_true] at hb
      rw [if_neg (by simp [hb])] at hm
      cases hm

/-- C2 witness: the theorem applied to the default `trace` alias — the
assignment body `trace: (x = 5)` is fatal with the side-effect message, and
the pure sequence body `trace: 'hello', username` is not fatal. -/
theorem claim2_side_effect_validation_witness :
    ((handleLabeledStatement sampleTmpl sampleOpts sampleMetadata "development"
        [] [] [] "trace" (.exprStmt false (.assignE (.ident "x") (.numLit 5))) =
      .fatal errMsg) ↔
      scanStmt (.exprStmt false (.assignE (.ident "x") (.numLit 5))) = true) ∧
    ((handleLabeledStatement sampleTmpl sampleOpts sampleMetadata "development"
        [] [] [] "trace"
        (.exprStmt false (.seqE (.cons (.strLit "hello") (.cons (.ident "username") .nil)))) =
      .fatal errMsg) ↔
      scanStmt (.exprStmt false
        (.seqE (.cons (.strLit "hello") (.cons (.ident "username") .nil)))) = true) ∧
    (∀ m, handleLabeledStatement sampleTmpl sampleOpts sampleMetadata "development"
        [] [] [] "trace" (.exprStmt false (.assignE (.ident "x") (.numLit 5))) =
      .fatal m → m = errMsg) :=
  ⟨(claim2_side_effect_validation sampleTmpl sampleOpts sampleMetadata "development"
      [] [] [] "trace" (.exprStmt false (.assignE (.ident "x") (.numLit 5))) "log"
      rfl rfl).1,
   (claim2_side_effect_validation sampleTmpl sampleOpts sampleMetadata "development"
      [] [] [] "trace"
      (.exprStmt false (.seqE (.cons (.strLit "hello") (.cons (.ident "username") .nil))))
      "log" rfl rfl).1,
   (claim2_side_effect_validation sampleTmpl sampleOpts sampleMetadata "development"
      [] [] [] "trace" (.exprStmt false (.assignE (.ident "x") (.numLit 5))) "log"
      rfl rfl).2.1⟩

/-- C7 counterexample: an expression statement nested two levels below the
label body (inside an inner block) is rewritten by the handler, not left
untouched — `path.traverse` visits all descendants, not only direct children —
and the constructed message record carries no `context` field (the renderer
reaches the context only through its metadata argument). -/
theorem claim7_counterexample :
    handleLabeledStatement sampleTmpl sampleOpts sampleMetadata "development"
      [] [] [] "trace"
      (.block (.cons (.block (.cons (.exprStmt false (.callE (.ident "f") .nil)) .nil))
        .nil)) =
      .replaced (.cons (.block (.cons (.exprStmt true
        (.callE (.memberE (.ident "console") "log")
          (.cons (.strLit "app:main:")
            (.cons (.callE (.ident "f") .nil) .nil)))) .nil)) .nil) ∧
    (((messageFields (mkMessage sampleMetadata (.callE (.ident "f") .nil))).map
      Prod.fst).contains "context") = false :=
  ⟨rfl, rfl⟩

/-- C7 as amended: for an alias-matching, non-stripped label with the default
console renderer and a denylist-free body, the handler replaces exactly the
non-handled expression statements at every depth of the body — each becoming
a handled statement wrapping the renderer applied to the statement's message —
and unwraps the result; the message exposes, as literal values, every
metadata field except `context` (in source order: prefix, hasStartMessage,
isStartMessage, indent, parentName, filename, dirname, basename, extname)
together with the statement's expression as payload. -/
theorem claim7_rewrite :
    (∀ tmpl opts md env pcs pfs pls l b lvl,
      lookupAlias (normalizeOpts opts) l = some (.fn (.console lvl)) →
      shouldStrip l md (normalizeOpts opts).strip env pcs pfs pls = false →
      scanStmt b = false →
      handleLabeledStatement tmpl opts md env pcs pfs pls l b =
        .replaced (unwrapStmts (rewriteStmt tmpl (.fn (.console lvl)) md b))) ∧
    (∀ md c, messageFields (mkMessage md c) =
      [("prefix", .strLit md.prefixStr), ("hasStartMessage", .boolLit md.hasStartMessage),
       ("isStartMessage", .boolLit md.isStartMessage), ("indent", .numLit md.indent),
       ("parentName", .strLit md.parentName), ("filename", .strLit md.filename),
       ("dirname", .strLit md.dirname), ("basename", .strLit md.basename),
       ("extname", .strLit md.extname)] ∧
      (mkMessage md c).content = c) ∧
    (∀ md c, (((messageFields (mkMessage md c)).map Prod.fst).contains "context") = false) := by
  refine ⟨?_, fun md c => ⟨rfl, rfl⟩, fun md c => rfl⟩
  intro tmpl opts md env pcs pfs pls l b lvl hl hs hb
  rw [handler_console tmpl opts md env pcs pfs pls l b lvl hl hs, if_neg (by simp [hb])]

/-- C7 witness: the theorem applied to the default `trace` alias on a nested
body — the replacement equals the pure rewrite at every depth — and the
message-field laws at the sample metadata. -/
theorem claim7_rewrite_witness :
    handleLabeledStatement sampleTmpl sampleOpts sampleMetadata "development"
      [] [] [] "trace"
      (.block (.cons (.block (.cons (.exprStmt false (.strLit "deep")) .nil)) .nil)) =
      .replaced (unwrapStmts (rewriteStmt sampleTmpl (.fn (.console "log")) sampleMetadata
        (.block (.cons (.block (.cons (.exprStmt false (.strLit "deep")) .nil)) .nil)))) ∧
    messageFields (mkMessage sampleMetadata (.strLit "deep")) =
      [("prefix", .strLit "app"), ("hasStartMessage", .boolLit false),
       ("isStartMessage", .boolLit false), ("indent", .numLit 0),
       ("parentName", .strLit "main"), ("filename", .strLit "/proj/src/app.js"),
       ("dirname", .strLit "/proj/src"), ("basename", .strLit "app"),
       ("extname", .strLit ".js")] ∧
    (((messageFields (mkMessage sampleMetadata (.strLit "deep"))).map
      Prod.fst).contains "context") = false :=
  ⟨claim7_rewrite.1 sampleTmpl sampleOpts sampleMetadata "development" [] [] []
      "trace" (.block (.cons (.block (.cons (.exprStmt false (.strLit "deep")) .nil)) .nil))
      "log" rfl rfl rfl,
   (claim7_rewrite.2.1 sampleMetadata (.strLit "deep")).1,
   claim7_rewrite.2.2 sampleMetadata (.strLit "deep")⟩

/-- C3: `shouldStrip` returns false for a falsy strip configuration; for a
tentatively-stripping configuration (`true`, the environment name, or a truthy
property at the environment name) the overrides are consulted in order —
case-insensitive context substring, filename substring, exact lower-cased
level — any match keeping the statement; and overrides never turn a keep into
a strip. The code-side function equals the spec-side one whenever the
`PreserveContexts` entries are already lower-case, which `normalizeEnv`
guarantees for the lists the plugin builds. -/
theorem claim3_strip_decision :
    (∀ name md strip env pcs pfs pls, (∀ pc ∈ pcs, jsToLower pc = pc) →
      shouldStrip name md strip env pcs pfs pls =
        shouldStripSpec name md strip env pcs pfs pls) ∧
    (∀ name md strip env pcs pfs pls, truthyStrip strip = false →
      shouldStrip name md strip env pcs pfs pls = false) ∧
    (∀ name md strip env pcs pfs pls,
      shouldStrip name md strip env pcs pfs pls = true →
      shouldStrip name md strip env [] [] [] = true) := by
  refine ⟨?_, ?_, ?_⟩
  · intro name md strip env pcs pfs pls hlc
    have hctx : pcs.any (fun pc => jsIncludes (jsToLower md.context) pc) =
        pcs.any (fun pc => ciSubstrOf pc md.context) := by
      refine anyEqOfMem pcs _ _ (fun pc hpc => ?_)
      unfold ciSubstrOf
      rw [hlc pc hpc]
    unfold shouldStrip shouldStripSpec
    cases hT : truthyStrip strip
    · simp [hT]
    · simp only [hT, Bool.true_and, Bool.false_eq_true, if_false]
      rw [guardAny, guardAny, guardAny, hctx]
      simp
  · intro name md strip env pcs pfs pls hT
    unfold shouldStrip
    simp [hT]
  · intro name md strip env pcs pfs pls h
    by_cases hc : (truthyStrip strip &&
        (stripIsTrue strip || stripEqEnv strip env || stripIndexTruthy strip env)) = true
    · unfold shouldStrip
      simp [hc]
    · unfold shouldStrip at h
      simp [hc] at h

/-- C3 witness: the decision evaluated concretely through the theorem — with
`strip: true` and `TRACE_LEVEL=warn` (so `pls = ["warn"]`), the spec-side and
code-side decisions agree on a `warn:` label (kept) and a `trace:` label
(stripped), falsy configuration keeps, and an override-kept decision implies
the tentative decision. -/
theorem claim3_strip_decision_witness :
    (shouldStrip "warn" sampleMetadata .strue "development" [] [] ["warn"] =
      shouldStripSpec "warn" sampleMetadata .strue "development" [] [] ["warn"]) ∧
    (shouldStrip "trace" sampleMetadata .strue "development" [] [] ["warn"] =
      shouldStripSpec "trace" sampleMetadata .strue "development" [] [] ["warn"]) ∧
    (shouldStrip "trace" sampleMetadata .absent "development" [] [] [] = false) ∧
    (shouldStrip "trace" sampleMetadata .strue "development" [] [] [] = true) :=
  ⟨claim3_strip_decision.1 "warn" sampleMetadata .strue "development" [] [] ["warn"]
      (by intro pc hpc; cases hpc),
   claim3_strip_decision.1 "trace" sampleMetadata .strue "development" [] [] ["warn"]
      (by intro pc hpc; cases hpc),
   claim3_strip_decision.2.1 "trace" sampleMetadata .absent "development" [] [] [] rfl,
   claim3_strip_decision.2.2 "trace" sampleMetadata .strue "development" [] [] []
      (by rfl)⟩

/-- C4 counterexample: with the string configuration `strip: "production"` and
current environment name `"0"`, the label is stripped even though
`"production" ≠ "0"` — JavaScript evaluates `strip[process.env.NODE_ENV]` on
the string, and `"production"["0"]` is the truthy character `"p"`. -/
theorem claim4_counterexample :
    shouldStrip "trace" sampleMetadata (.sstr "production") "0" [] [] [] = true ∧
    "production" ≠ "0" := by
  exact ⟨rfl, by decide⟩

/-- C4 as amended: for a string strip configuration the tentative decision
(no overrides) is true iff the string is non-empty and either equals the
environment name or has a truthy property at the environment name (an in-range
canonical character index, or `length`). -/
theorem claim4_string_config :
    ∀ (s env name : String) (md : Metadata),
      shouldStrip name md (.sstr s) env [] [] [] =
        if s = "" then false
        else if s = env then true
        else strIndexTruthy s env := by
  intro s env name md
  unfold shouldStrip
  by_cases hs : s = ""
  · simp [hs, truthyStrip]
  · by_cases he : s = env
    · simp [hs, he, truthyStrip, stripIsTrue, stripEqEnv]
    · simp [hs, he, truthyStrip, stripIsTrue, stripEqEnv, stripIndexTruthy]

/-- C5: the file-derived prefix is the extension-less basename unless it is
`index`, in which case it is the parent directory's name unless that is `src`
or `lib`, in which case it is the grandparent directory's name; concretely,
`src/db/models/index.js` gets prefix `models`. -/
theorem claim5_file_prefix :
    (∀ dirname basename, generatePrefixStr dirname basename = prefixSpec dirname basename) ∧
    filePrefixOf "/proj" "src/db/models/index.js" = "models" := by
  exact ⟨fun dirname basename => rfl, rfl⟩

/-- C6: start-message detection — no flags without a non-program parent scope;
a handled first child yields `(hasStartMessage, isStartMessage) = (true, false)`;
a non-labeled first child stops with both false; an alias-labeled child stops
with a start message, marking the inspected statement when it is that child;
and concretely: of two leading `trace:` labels the inspected first gets
`(true, true)`, the inspected second gets `(true, false)` (scanning stops at
the sibling, or at its handled replacement), and a `trace:` label preceded by
a non-labeled statement gets `(false, false)`. -/
theorem claim6_start_message :
    (∀ isAlias, startMessageFlags isAlias .noParent = (false, false) ∧
      startMessageFlags isAlias .program = (false, false)) ∧
    (∀ (isAlias : String → Bool) (l : Option String) (cur : Bool) rest,
      startMessageScan isAlias ({ handled := true, label := l, isCurrent := cur } :: rest) =
        (true, false)) ∧
    (∀ (isAlias : String → Bool) (cur : Bool) rest,
      startMessageScan isAlias ({ handled := false, label := none, isCurrent := cur } :: rest) =
        (false, false)) ∧
    (∀ (isAlias : String → Bool) (l : String) (cur : Bool) rest,
      startMessageScan isAlias ({ handled := false, label := some l, isCurrent := cur } :: rest) =
        if isAlias l then (true, cur) else startMessageScan isAlias rest) ∧
    startMessageFlags defaultActive (.scope
      [{ handled := false, label := some "trace", isCurrent := true },
       { handled := false, label := some "trace", isCurrent := false }]) = (true, true) ∧
    startMessageFlags defaultActive (.scope
      [{ handled := false, label := some "trace", isCurrent := false },
       { handled := false, label := some "trace", isCurrent := true }]) = (true, false) ∧
    startMessageFlags defaultActive (.scope
      [{ handled := false, label := none, isCurrent := false },
       { handled := false, label := some "trace", isCurrent := true }]) = (false, false) ∧
    startMessageFlags defaultActive (.scope
      [{ handled := true, label := none, isCurrent := false },
       { handled := false, label := some "trace", isCurrent := true }]) = (true, false) := by
  refine ⟨fun isAlias => ⟨rfl, rfl⟩, fun isAlias l cur rest => rfl,
    fun isAlias cur rest => rfl, fun isAlias l cur rest => rfl, rfl, rfl, rfl, rfl⟩

/-- C8 counterexample: a configuration that supplies a present-but-empty
aliases object is normalized to an empty alias table, so the table is not
"never empty after normalization". -/
theorem claim8_counterexample :
    tableIsEmpty
      (normalizeOpts { aliases := some .nil, strip := .absent, normalized := false }) = true := rfl

/-- C8 as amended: normalization is idempotent (a tagged record passes through
unchanged, so string templates are never wrapped twice); when `config.aliases`
is absent the defaults `log`/`trace`/`warn` are installed, `trace` and `log`
sharing the `log`-level renderer and `warn` routing to `warn`, so the table is
non-empty whenever the aliases were absent (a supplied-but-empty aliases
object, however, stays empty). -/
theorem claim8_normalize :
    (∀ o, normalizeOpts (normalizeOpts o) = normalizeOpts o) ∧
    (∀ sc, (normalizeOpts { aliases := none, strip := sc, normalized := false }).aliases =
      some defaultAliases) ∧
    aliasFind defaultAliases "trace" = some (.fn (.console "log")) ∧
    aliasFind defaultAliases "log" = some (.fn (.console "log")) ∧
    aliasFind defaultAliases "warn" = some (.fn (.console "warn")) ∧
    (∀ sc, tableIsEmpty
      (normalizeOpts { aliases := none, strip := sc, normalized := false }) = false) := by
  refine ⟨?_, fun sc => rfl, rfl, rfl, rfl, fun sc => rfl⟩
  intro o
  unfold normalizeOpts
  by_cases h : o.normalized = true
  · simp [h]
  · simp [h]

/-- C9: the default renderer's display prefix is the context followed by `:`
followed by `indent` two-space units; a sequence payload of N expressions is
spread into a console call with N+1 arguments (prefix first, payload order
preserved); any other payload yields a console call with exactly two
arguments (prefix, payload). -/
theorem claim9_renderer :
    ∀ (lvl : String) (msg : Message) (md : Metadata) (es : ExprList),
      (msg.content = .seqE es →
        getLogFunction lvl msg md =
          .callE (.memberE (.ident "console") lvl)
            (.cons (.strLit (md.context ++ ":" ++ twoSpaceRepeat md.indent)) es) ∧
        lengthEL (callArgs (getLogFunction lvl msg md)) = lengthEL es + 1) ∧
      ((∀ es', msg.content ≠ .seqE es') →
        getLogFunction lvl msg md =
          .callE (.memberE (.ident "console") lvl)
            (.cons (.strLit (md.context ++ ":" ++ twoSpaceRepeat md.indent))
              (.cons msg.content .nil)) ∧
        lengthEL (callArgs (getLogFunction lvl msg md)) = 2) := by
  intro lvl msg md es
  constructor
  · intro h
    constructor
    · simp [getLogFunction, h, ifIndent, ifIndentZero]
    · simp [getLogFunction, h, ifIndent, ifIndentZero, callArgs, lengthEL]
  · intro h
    cases hc : msg.content <;>
      first
        | exact absurd hc (h _)
        | constructor <;> simp [getLogFunction, hc, ifIndent, ifIndentZero, callArgs, lengthEL]

/-- C9 witness: the renderer evaluated through the theorem at a two-expression
sequence payload (three arguments) and at a single string payload (two
arguments), under the sample metadata (context `app:main`, indent 0). -/
theorem claim9_renderer_witness :
    (getLogFunction "log" sampleSeqMsg sampleMetadata =
      .callE (.memberE (.ident "console") "log")
        (.cons (.strLit "app:main:")
          (.cons (.strLit "hello") (.cons (.ident "username") .nil))) ∧
     lengthEL (callArgs (getLogFunction "log" sampleSeqMsg sampleMetadata)) = 3) ∧
    (getLogFunction "warn" sampleSingleMsg sampleMetadata =
      .callE (.memberE (.ident "console") "warn")
        (.cons (.strLit "app:main:") (.cons (.strLit "hello") .nil)) ∧
     lengthEL (callArgs (getLogFunction "warn" sampleSingleMsg sampleMetadata)) = 2) :=
  ⟨(claim9_renderer "log" sampleSeqMsg sampleMetadata
      (.cons (.strLit "hello") (.cons (.ident "username") .nil))).1 rfl,
   (claim9_renderer "warn" sampleSingleMsg sampleMetadata .nil).2
      (fun _ h => Expr.noConfusion h)⟩

/-- C10: when at least one non-default named import reference exists, the
macro discards configured aliases in favour of a table mapping each referenced
name to the default renderer — `warn` level iff the name is in
`warningLabels` (whose destructuring default is `["warn"]`) — and configured
aliases take effect only when no named references exist. -/
theorem claim10_macro_aliases :
    (∀ rn wl a, rn ≠ [] → macroAliases rn wl a = some (refAliases wl rn)) ∧
    (∀ rn wl a a', rn ≠ [] → macroAliases rn wl a = macroAliases rn wl a') ∧
    (∀ wl a, macroAliases [] wl a = a) ∧
    (∀ wl rn k, k ∈ rn →
      aliasFind (refAliases wl rn) k =
        some (.fn (.console (if wlIncludes wl k then "warn" else "log")))) ∧
    wlIncludes defaultWarningLabels "warn" = true := by
  have hne : ∀ (rn : List String) (wl : Option (List String)) (a : Option AliasList),
      rn ≠ [] → macroAliases rn wl a = some (refAliases wl rn) := by
    intro rn wl a h
    cases rn with
    | nil => exact absurd rfl h
    | cons x xs => simp [macroAliases]
  refine ⟨hne, ?_, fun wl a => rfl, ?_, rfl⟩
  · intro rn wl a a' h
    rw [hne rn wl a h, hne rn wl a' h]
  · intro wl rn k hk
    induction rn with
    | nil => cases hk
    | cons n ns ih =>
      by_cases hn : n = k
      · subst hn
        simp [refAliases, aliasFind]
      · rcases List.mem_cons.mp hk with h1 | h2
        · exact absurd h1.symm hn
        · simp [refAliases, aliasFind, hn]
          exact ih h2

/-- C10 witness: the macro evaluated through the theorem — with references
`{trace, warn}` the configured aliases are discarded and `warn` routes to the
`warn` level while `trace` routes to `log`; with no references the configured
aliases survive. -/
theorem claim10_macro_aliases_witness :
    macroAliases ["trace", "warn"] defaultWarningLabels (some defaultAliases) =
      some (refAliases defaultWarningLabels ["trace", "warn"]) ∧
    macroAliases ["trace", "warn"] defaultWarningLabels (some defaultAliases) =
      macroAliases ["trace", "warn"] defaultWarningLabels none ∧
    macroAliases [] defaultWarningLabels (some defaultAliases) = some defaultAliases ∧
    aliasFind (refAliases defaultWarningLabels ["trace", "warn"]) "warn" =
      some (.fn (.console "warn")) ∧
    aliasFind (refAliases defaultWarningLabels ["trace", "warn"]) "trace" =
      some (.fn (.console "log")) :=
  ⟨claim10_macro_aliases.1 ["trace", "warn"] defaultWarningLabels (some defaultAliases)
      (by simp),
   claim10_macro_aliases.2.1 ["trace", "warn"] defaultWarningLabels (some defaultAliases) none
      (by simp),
   claim10_macro_aliases.2.2.1 defaultWarningLabels (some defaultAliases),
   claim10_macro_aliases.2.2.2.1 defaultWarningLabels ["trace", "warn"] "warn" (by simp),
   claim10_macro_aliases.2.2.2.1 defaultWarningLabels ["trace", "warn"] "trace" (by simp)⟩

end BabelTrace
